import Mathlib

/-!
Verification of the thread-pool core in `src/thread_pool.h` (class `ThreadPool`).

The C++ class holds (lines 92-101):
  * `pool_   : std::vector<std::thread>`  — the worker threads,
  * `tasks_  : std::queue<std::function<void()>>` — the FIFO task queue,
  * `core_   : int`                       — number of worker threads,
  * `quit_   : std::atomic<bool>`         — shutdown-requested flag,
  * `force_  : std::atomic<bool>`         — forced-shutdown flag,
  * a condition variable `enable_` and a mutex `oper_lock_`.

We embed the pool as a state record.  Tasks are identified by natural
numbers (in the C++ each enqueued closure is a distinct object; the id
plays that role).  Three ghost logs instrument the state so that the
spec's accounting properties can be stated: `committed` records the ids
accepted by `commit` in order, `dequeued` the ids removed at lines 59-60
in order, and `executed` the ids whose `task()` call (line 62) finished,
in completion order.  The ghost fields are write-only from the point of
view of the modelled code: no operation reads them.
-/

/-- Phase of one worker thread running the lambda of `start` (lines 45-64).
`entry` is the point just before line 47 (the thread was created but has
not yet evaluated the local `quit_`); `waiting` is the top of the `for`
loop, blocked in `enable_.wait`; `executing t` is line 62 with the
dequeued task `t`; `exited` means the lambda returned. -/
inductive WorkerPhase where
  | entry
  | waiting
  | executing (t : Nat)
  | exited
deriving DecidableEq, Repr

/-- Observable synchronisation events, used to state the ordering claims
about `commit` (lines 86-89), `shutdown` (lines 68-71) and the
destructor (lines 33-41). -/
inductive PoolEvent where
  | lockAcquire
  | lockRelease
  | enqueue (t : Nat)
  | notifyOne
  | notifyAll
  | storeQuit (b : Bool)
  | storeForce (b : Bool)
deriving DecidableEq, Repr

/-- The pool state: the data members of class `ThreadPool` plus the ghost
logs described above. -/
structure ThreadPool where
  core_ : Nat
  tasks_ : List Nat
  pool_ : List WorkerPhase
  quit_ : Bool
  force_ : Bool
  committed : List Nat
  dequeued : List Nat
  executed : List Nat
deriving DecidableEq, Repr

/-- Constructor `ThreadPool(int core, int max = 0, int cache = 0)`
(lines 28-31): records the configuration, sets `quit_ = false` and
`force_ = false`, creates no threads.  `max` and `cache` are stored but
never read by any other member function, so they are omitted from the
state. -/
def ThreadPool.init (core : Nat) : ThreadPool :=
  { core_ := core, tasks_ := [], pool_ := [], quit_ := false, force_ := false
  , committed := [], dequeued := [], executed := [] }

/-- `start()` (lines 43-66): spawns exactly `core_` threads, each at the
entry of the worker lambda. -/
def ThreadPool.start (p : ThreadPool) : ThreadPool :=
  { p with pool_ := p.pool_ ++ List.replicate p.core_ WorkerPhase.entry }

/-- `shutdown(bool force = false)` (lines 68-71):
`quit_.store(true); force_.store(force);` — and nothing else.  The
returned event list is exactly the sequence of synchronisation actions
the function performs. -/
def ThreadPool.shutdown (p : ThreadPool) (force : Bool) :
    ThreadPool × List PoolEvent :=
  ({ p with quit_ := true, force_ := force },
   [PoolEvent.storeQuit true, PoolEvent.storeForce force])

/-- `commit(T && t, Args&&...args)` (lines 75-90).  If `quit_` is set it
throws `std::runtime_error("thread pool is alreay shutdown.")` before
touching any state (lines 78-81).  Otherwise it wraps the callable in a
`packaged_task`, takes the future (line 85), acquires `oper_lock_` via a
`lock_guard` (line 86), emplaces the wrapper (line 87), calls
`enable_.notify_one()` (line 88) and returns the future (line 89); the
`lock_guard` releases the mutex only when the scope ends, i.e. after the
`notify_one`.  Result: (new state, event trace, thrown error or returned
future id). -/
def ThreadPool.commit (p : ThreadPool) (t : Nat) :
    ThreadPool × List PoolEvent × Except String Nat :=
  if p.quit_ then
    (p, [], Except.error "thread pool is alreay shutdown.")
  else
    ({ p with tasks_ := p.tasks_ ++ [t], committed := p.committed ++ [t] },
     [PoolEvent.lockAcquire, PoolEvent.enqueue t,
      PoolEvent.notifyOne, PoolEvent.lockRelease],
     Except.ok t)

/-- Flag effect of the destructor `~ThreadPool()` (line 34):
`quit_.store(true)` — note `force_` is left untouched. -/
def ThreadPool.dtorRequest (p : ThreadPool) : ThreadPool :=
  { p with quit_ := true }

/-- Event trace of the destructor before the joins (lines 34-35):
store `quit_`, then `enable_.notify_all()`. -/
def ThreadPool.dtorEvents : List PoolEvent :=
  [PoolEvent.storeQuit true, PoolEvent.notifyAll]

/-- The destructor's join loop (lines 36-40) `t.join()`s every thread in
`pool_`; `std::thread::join` returns only once the thread has finished,
so the loop completes exactly when every worker has exited. -/
def ThreadPool.dtorJoinDone (p : ThreadPool) : Bool :=
  p.pool_.all fun w => decide (w = WorkerPhase.exited)

/-- The wait predicate of `enable_.wait` (lines 52-54):
`quit_.load() || !tasks_.empty()`. -/
def waitPredicate (quit : Bool) (tasks : List Nat) : Bool :=
  quit || !tasks.isEmpty

/-- The worker's exit check (line 56): `quit_.load() && tasks_.empty()`. -/
def exitCheck (quit : Bool) (tasks : List Nat) : Bool :=
  quit && tasks.isEmpty

/-- The task id a worker currently executes, if any. -/
def execOf (w : WorkerPhase) : Option Nat :=
  match w with
  | WorkerPhase.executing t => some t
  | _ => none

/-- The ids currently being executed (one per worker in phase
`executing`). -/
def inFlight (p : ThreadPool) : List Nat :=
  p.pool_.filterMap execOf

/-- Every worker thread has exited its lambda. -/
def allExited (p : ThreadPool) : Prop :=
  ∀ w ∈ p.pool_, w = WorkerPhase.exited

instance (p : ThreadPool) : Decidable (allExited p) :=
  List.decidableBAll _ p.pool_

/-- Interleaved small-step semantics of the pool.  Worker steps follow
the lambda of `start` (lines 45-64) exactly:

* `enter`: line 47, `bool quit_ = force_.load() ? quit_.load() : false;`
  computes the *local* `quit_` once; the loop `for (; !quit_;)` then
  either never runs (local flag true: the worker exits at once) or runs
  with a local flag that is never reassigned, so the worker can only
  leave through the `return` at line 57.
* `exitLoop`: lines 52-58 under the mutex — the wait predicate passed
  because `quit_` is set, the exit check `quit_ && tasks_.empty()`
  succeeded, the worker returns.
* `dequeue`: lines 52-60 under the mutex — the wait predicate passed
  because the queue is non-empty, the exit check failed, the worker
  moves `tasks_.front()` out and pops it.
* `finish`: line 62, `task();` runs outside the lock and completes (the
  `packaged_task` inside stores any exception in its shared state, so
  the call itself always returns); the loop condition `!quit_` re-reads
  the unchanged local flag, so the worker is back at the wait.

Pool-interface steps:

* `commitStep`: a successful `commit` (the line-78 check saw
  `quit_ == false`); the freshness hypothesis `t ∉ committed` is the
  ghost counterpart of each C++ call creating a distinct closure.
* `shutdownStep`: a call to `shutdown(f)`.
-/
inductive Step : ThreadPool → ThreadPool → Prop where
  | enter (p : ThreadPool) (i : Nat)
      (hw : p.pool_[i]? = some WorkerPhase.entry) :
      Step p { p with pool_ := p.pool_.set i (if p.force_ && p.quit_ then WorkerPhase.exited else WorkerPhase.waiting) }
  | exitLoop (p : ThreadPool) (i : Nat)
      (hw : p.pool_[i]? = some WorkerPhase.waiting)
      (hq : p.quit_ = true) (ht : p.tasks_ = []) :
      Step p { p with pool_ := p.pool_.set i WorkerPhase.exited }
  | dequeue (p : ThreadPool) (i : Nat) (t : Nat) (ts : List Nat)
      (hw : p.pool_[i]? = some WorkerPhase.waiting)
      (ht : p.tasks_ = t :: ts) :
      Step p { p with pool_ := p.pool_.set i (WorkerPhase.executing t), tasks_ := ts, dequeued := p.dequeued ++ [t] }
  | finish (p : ThreadPool) (i : Nat) (t : Nat)
      (hw : p.pool_[i]? = some (WorkerPhase.executing t)) :
      Step p { p with pool_ := p.pool_.set i WorkerPhase.waiting, executed := p.executed ++ [t] }
  | commitStep (p : ThreadPool) (t : Nat)
      (hq : p.quit_ = false) (hfresh : t ∉ p.committed) :
      Step p (p.commit t).1
  | shutdownStep (p : ThreadPool) (f : Bool) :
      Step p (p.shutdown f).1

/-- Reachability under arbitrary interleaving. -/
def Reach : ThreadPool → ThreadPool → Prop :=
  Relation.ReflTransGen Step

/-- A step of a run in which shutdown is only ever requested
gracefully: since only `shutdownStep` can change `force_`, demanding
`force_ = false` after every step is exactly the restriction that every
`shutdown` call in the run passed `force = false`. -/
def GStep (p q : ThreadPool) : Prop :=
  Step p q ∧ q.force_ = false

/-- Reachability along graceful-only runs. -/
def ReachG : ThreadPool → ThreadPool → Prop :=
  Relation.ReflTransGen GStep

/-- A freshly started pool with `n` workers:
`ThreadPool pool(n); pool.start();`. -/
def startedPool (n : Nat) : ThreadPool :=
  (ThreadPool.init n).start

/-- The event order the spec states for a successful submission: acquire
the lock, append the task, release the lock, then wake one worker.
Written from the spec's words for the refinement comparison with
`ThreadPool.commit`; it is NOT what the code does. -/
def commitEventOrderSpec (t : Nat) : List PoolEvent :=
  [PoolEvent.lockAcquire, PoolEvent.enqueue t,
   PoolEvent.lockRelease, PoolEvent.notifyOne]

/-- The result cell shared between a `packaged_task` and the
`std::future` obtained from it at line 85: after invocation it holds
either the callable's value or the exception the callable raised. -/
inductive FutureState where
  | ready (v : Nat)
  | failed (msg : String)
deriving DecidableEq, Repr

/-- Semantics of `task()` at line 62, where `task` is the line-87
wrapper `[task]{ (*task)(); }` around the `std::packaged_task` built at
lines 82-84.  Invoking a `packaged_task` runs the bound callable and
stores its value — or any exception it raises — into the shared state
read through the future; the stored exception is NOT re-raised in the
worker, so the wrapper always returns normally.  The callable's
behaviour is a value or a raised failure (`Except`); the call always
produces a settled `FutureState` and never propagates. -/
def invokeTask (body : Except String Nat) : FutureState :=
  match body with
  | Except.ok v => FutureState.ready v
  | Except.error m => FutureState.failed m

/-- A one-worker pool whose worker waits while task 5 is queued; used
as a concrete witness state. -/
def pWaiting : ThreadPool :=
  { core_ := 1, tasks_ := [5], pool_ := [WorkerPhase.waiting],
    quit_ := false, force_ := false,
    committed := [5], dequeued := [], executed := [] }

/-- End state of a concrete graceful run of a one-worker pool: task 0
was accepted, executed, and the worker exited after a `shutdown(false)`. -/
def gDone : ThreadPool :=
  { core_ := 1, tasks_ := [], pool_ := [WorkerPhase.exited],
    quit_ := true, force_ := false,
    committed := [0], dequeued := [0], executed := [0] }

/-- A one-worker pool that accepted task 0, still queued. -/
def qReady : ThreadPool :=
  { core_ := 1, tasks_ := [0], pool_ := [WorkerPhase.waiting],
    quit_ := false, force_ := false,
    committed := [0], dequeued := [], executed := [] }

/-- `qReady` after its worker dequeued task 0. -/
def qAfter : ThreadPool :=
  { core_ := 1, tasks_ := [], pool_ := [WorkerPhase.executing 0],
    quit_ := false, force_ := false,
    committed := [0], dequeued := [0], executed := [] }

/-- A one-worker pool whose worker is executing task 0 while task 1 is
queued. -/
def pExec : ThreadPool :=
  { core_ := 1, tasks_ := [1], pool_ := [WorkerPhase.executing 0],
    quit_ := false, force_ := false,
    committed := [0, 1], dequeued := [0], executed := [] }

/-- `pExec` after its worker finished task 0 (however the task body
ended). -/
def pExecDone : ThreadPool :=
  { core_ := 1, tasks_ := [1], pool_ := [WorkerPhase.waiting],
    quit_ := false, force_ := false,
    committed := [0, 1], dequeued := [0], executed := [0] }

/-- `pExecDone` after the surviving worker dequeued the next task. -/
def pExecNext : ThreadPool :=
  { core_ := 1, tasks_ := [], pool_ := [WorkerPhase.executing 1],
    quit_ := false, force_ := false,
    committed := [0, 1], dequeued := [0, 1], executed := [0] }

/-- A one-worker pool at the instant a FORCED shutdown has just been
requested: `quit_` and `force_` are set, task 0 is still waiting in the
queue, and no task is executing. -/
def fShutdown : ThreadPool :=
  { core_ := 1, tasks_ := [0], pool_ := [WorkerPhase.waiting],
    quit_ := true, force_ := true,
    committed := [0], dequeued := [], executed := [] }

/-- The state the code actually drives `fShutdown` to: the queued task
was dequeued and executed before the worker exited, despite the forced
mode. -/
def fFinal : ThreadPool :=
  { core_ := 1, tasks_ := [], pool_ := [WorkerPhase.exited],
    quit_ := true, force_ := true,
    committed := [0], dequeued := [0], executed := [0] }

/-- A two-worker pool whose destructor join loop has completed. -/
def pJoined : ThreadPool :=
  { core_ := 2, tasks_ := [], pool_ := [WorkerPhase.exited, WorkerPhase.exited],
    quit_ := true, force_ := true,
    committed := [], dequeued := [], executed := [] }

/-- The inductive invariant of the pool, for a pool started with `n`
workers; it holds in every reachable state under arbitrary
interleaving (forced shutdowns included):

* `fifo`: the accepted ids, in acceptance order, are exactly the
  dequeued ids (in dequeue order) followed by the queue contents (in
  queue order) — the queue is FIFO and dequeues respect acceptance
  order.
* `acct`: every dequeued id is either currently executing or already
  executed, and nothing else is.
* `nodup`: no id was accepted twice.
* `len`: the worker count stays `n`.
* `exq`: a worker can only have exited after shutdown was requested. -/
structure PoolInv (n : Nat) (p : ThreadPool) : Prop where
  fifo : p.committed = p.dequeued ++ p.tasks_
  acct : p.dequeued.Perm (p.executed ++ inFlight p)
  nodup : p.committed.Nodup
  len : p.pool_.length = n
  exq : (∃ w ∈ p.pool_, w = WorkerPhase.exited) → p.quit_ = true

/-- C3: a `commit` issued once the shutdown-requested flag `quit_` is
true throws `runtime_error("thread pool is alreay shutdown.")`
synchronously, enqueues nothing, and leaves the whole pool state
unchanged — it never silently succeeds. -/
theorem commit_after_shutdown_rejected (p : ThreadPool) (t : Nat)
    (h : p.quit_ = true) :
    p.commit t = (p, [], Except.error "thread pool is alreay shutdown.") := by
  simp [ThreadPool.commit, h]

theorem commit_after_shutdown_rejected_witness :
    ((startedPool 2).shutdown false).1.quit_ = true ∧
    ((startedPool 2).shutdown false).1.commit 7 =
      (((startedPool 2).shutdown false).1, [],
        Except.error "thread pool is alreay shutdown.") :=
  ⟨rfl, commit_after_shutdown_rejected _ 7 rfl⟩

/-- C4 counterexample: the claim says `shutdown` wakes all workers with
a broadcast; in the code (lines 68-71) `shutdown` only stores the two
flags — its trace contains no `notify_all` (nor even a `notify_one`),
for either value of `force`. -/
theorem shutdown_emits_no_notification :
    PoolEvent.notifyAll ∉ ((startedPool 2).shutdown true).2 ∧
    PoolEvent.notifyAll ∉ ((startedPool 2).shutdown false).2 ∧
    PoolEvent.notifyOne ∉ ((startedPool 2).shutdown true).2 ∧
    PoolEvent.notifyOne ∉ ((startedPool 2).shutdown false).2 := by
  decide

/-- C4 amended: `shutdown(force)` sets the shutdown-requested flag to
true and the mode flag to `force`, but performs no notification at all
(neither broadcast nor single wake); the only broadcast in the class is
the destructor's `notify_all` (line 35). -/
theorem shutdown_sets_flags_without_notify (p : ThreadPool) (f : Bool) :
    (p.shutdown f).1.quit_ = true ∧ (p.shutdown f).1.force_ = f ∧
    (p.shutdown f).2 = [PoolEvent.storeQuit true, PoolEvent.storeForce f] ∧
    PoolEvent.notifyAll ∉ (p.shutdown f).2 ∧
    PoolEvent.notifyOne ∉ (p.shutdown f).2 ∧
    PoolEvent.notifyAll ∈ ThreadPool.dtorEvents := by
  refine ⟨rfl, rfl, rfl, ?_, ?_, ?_⟩ <;> simp [ThreadPool.shutdown, ThreadPool.dtorEvents]

/-- C5 counterexample: the claim says a successful `commit` releases the
lock and then wakes one worker; in the code (lines 86-89) the
`lock_guard` is still held when `notify_one` runs, so the actual trace
puts `notifyOne` before `lockRelease`, differing from the spec's order. -/
theorem commit_notify_before_unlock_counterexample :
    ((startedPool 2).commit 0).2.1 ≠ commitEventOrderSpec 0 ∧
    ((startedPool 2).commit 0).2.1 =
      [PoolEvent.lockAcquire, PoolEvent.enqueue 0,
       PoolEvent.notifyOne, PoolEvent.lockRelease] := by
  decide

/-- C5 amended: a successful `commit` acquires the lock, appends the
wrapped task at the back of the queue, wakes exactly one worker with
`notify_one` (no broadcast) while still holding the lock, releases the
lock, and returns the future for the task; commit is a plain function of
the pre-state — it never waits for the task to complete. -/
theorem commit_success_event_order (p : ThreadPool) (t : Nat)
    (h : p.quit_ = false) :
    (p.commit t).2.1 =
      [PoolEvent.lockAcquire, PoolEvent.enqueue t,
       PoolEvent.notifyOne, PoolEvent.lockRelease] ∧
    (p.commit t).2.1.count PoolEvent.notifyOne = 1 ∧
    PoolEvent.notifyAll ∉ (p.commit t).2.1 ∧
    (p.commit t).2.2 = Except.ok t ∧
    (p.commit t).1.tasks_ = p.tasks_ ++ [t] := by
  refine ⟨?_, ?_, ?_, ?_, ?_⟩ <;>
    simp [ThreadPool.commit, h, List.count_cons]

theorem commit_success_event_order_witness :
    (startedPool 1).quit_ = false ∧
    ((startedPool 1).commit 3).2.1 =
      [PoolEvent.lockAcquire, PoolEvent.enqueue 3,
       PoolEvent.notifyOne, PoolEvent.lockRelease] ∧
    ((startedPool 1).commit 3).2.1.count PoolEvent.notifyOne = 1 ∧
    PoolEvent.notifyAll ∉ ((startedPool 1).commit 3).2.1 ∧
    ((startedPool 1).commit 3).2.2 = Except.ok 3 ∧
    ((startedPool 1).commit 3).1.tasks_ = (startedPool 1).tasks_ ++ [3] :=
  ⟨rfl, commit_success_event_order (startedPool 1) 3 rfl⟩

/-- C9: at the dequeue point (lines 59-60) the queue is never empty: if
the wait predicate (lines 52-54) passed and the exit check (line 56)
failed, the queue holds at least one task, `front()` is defined, and the
dequeue transition of the worker is enabled. -/
theorem dequeue_point_queue_nonempty (p : ThreadPool) (i : Nat)
    (hw : p.pool_[i]? = some WorkerPhase.waiting)
    (hwait : waitPredicate p.quit_ p.tasks_ = true)
    (hexit : exitCheck p.quit_ p.tasks_ = false) :
    ∃ t ts, p.tasks_ = t :: ts ∧
      Step p { p with pool_ := p.pool_.set i (WorkerPhase.executing t), tasks_ := ts, dequeued := p.dequeued ++ [t] } := by
  cases hts : p.tasks_ with
  | nil =>
    rw [hts] at hwait hexit
    cases hq : p.quit_ <;> rw [hq] at hwait hexit <;>
      simp [waitPredicate, exitCheck] at hwait hexit
  | cons t ts =>
    exact ⟨t, ts, rfl, Step.dequeue p i t ts hw hts⟩

theorem dequeue_point_queue_nonempty_witness :
    pWaiting.pool_[0]? = some WorkerPhase.waiting ∧
    waitPredicate pWaiting.quit_ pWaiting.tasks_ = true ∧
    exitCheck pWaiting.quit_ pWaiting.tasks_ = false ∧
    ∃ t ts, pWaiting.tasks_ = t :: ts ∧
      Step pWaiting { pWaiting with pool_ := pWaiting.pool_.set 0 (WorkerPhase.executing t), tasks_ := ts, dequeued := pWaiting.dequeued ++ [t] } :=
  ⟨rfl, rfl, rfl, dequeue_point_queue_nonempty pWaiting 0 rfl rfl rfl⟩

/-- C10: `shutdown` calls compose with last-call-wins on the mode:
`shutdown(a)` then `shutdown(b)` leaves exactly the state of a single
`shutdown(b)` — `quit_` is true (idempotent) and `force_` equals `b`;
in particular `shutdown(false)` after `shutdown(true)` resets the mode
to graceful. -/
theorem shutdown_last_call_wins (p : ThreadPool) (a b : Bool) :
    ((p.shutdown a).1.shutdown b).1 = (p.shutdown b).1 ∧
    ((p.shutdown a).1.shutdown b).1.quit_ = true ∧
    ((p.shutdown a).1.shutdown b).1.force_ = b ∧
    ((p.shutdown true).1.shutdown false).1.force_ = false :=
  ⟨rfl, rfl, rfl, rfl⟩

/-- Rearranging three blocks: `(u ++ l) ++ v` is a permutation of
`(v ++ l) ++ u`. -/
theorem perm_swap_ends {β : Type} (u v l : List β) :
    ((u ++ l) ++ v).Perm ((v ++ l) ++ u) := by
  have h1 : ((u ++ l) ++ v).Perm (v ++ (u ++ l)) := List.perm_append_comm
  have h2 : (v ++ (u ++ l)).Perm (v ++ (l ++ u)) :=
    List.Perm.append_left v List.perm_append_comm
  have h3 : v ++ (l ++ u) = (v ++ l) ++ u := (List.append_assoc v l u).symm
  exact h1.trans (h3 ▸ h2)

/-- `filterMap` of a single cons as an append. -/
theorem filterMap_cons_toList {α β : Type} (f : α → Option β) (w : α)
    (tl : List α) :
    List.filterMap f (w :: tl) = (f w).toList ++ List.filterMap f tl := by
  cases h : f w <;> simp [List.filterMap_cons, h]

/-- Updating position `i` (which held `a`) to `b` changes the
`filterMap` of a list only by trading `f a` for `f b`, up to
permutation. -/
theorem filterMap_set_perm {α β : Type} (f : α → Option β) :
    ∀ (ws : List α) (i : Nat) (a b : α), ws[i]? = some a →
      ((ws.set i b).filterMap f ++ (f a).toList).Perm
        (ws.filterMap f ++ (f b).toList)
  | [], i, a, b, h => by simp at h
  | w :: tl, 0, a, b, h => by
      have ha : w = a := by simpa using h
      subst ha
      have hset : (w :: tl).set 0 b = b :: tl := rfl
      rw [hset, filterMap_cons_toList, filterMap_cons_toList]
      exact perm_swap_ends (f b).toList (f w).toList (List.filterMap f tl)
  | w :: tl, i + 1, a, b, h => by
      have h' : tl[i]? = some a := by simpa using h
      have hset : (w :: tl).set (i + 1) b = w :: tl.set i b := rfl
      rw [hset, filterMap_cons_toList, filterMap_cons_toList,
        List.append_assoc, List.append_assoc]
      exact List.Perm.append_left (f w).toList (filterMap_set_perm f tl i a b h')

/-- An indexed element is a member. -/
theorem mem_of_getElem_opt {α : Type} {l : List α} {i : Nat} {a : α}
    (h : l[i]? = some a) : a ∈ l := by
  obtain ⟨hlt, rfl⟩ := List.getElem?_eq_some_iff.1 h
  exact List.getElem_mem hlt

theorem inv_init (n : Nat) : PoolInv n (startedPool n) := by
  refine ⟨rfl, ?_, List.nodup_nil, by simp [startedPool, ThreadPool.init, ThreadPool.start], ?_⟩
  · have h : inFlight (startedPool n) = [] := by
      apply List.filterMap_eq_nil_iff.2
      intro w hw
      simp only [startedPool, ThreadPool.start, ThreadPool.init, List.nil_append,
        List.mem_replicate] at hw
      rw [hw.2]
      rfl
    rw [h]
    simp [startedPool, ThreadPool.init, ThreadPool.start]
  · rintro ⟨w, hw, rfl⟩
    simp only [startedPool, ThreadPool.start, ThreadPool.init, List.nil_append,
      List.mem_replicate] at hw
    exact absurd hw.2 (by simp)

/-- Trading the phase at one position changes `inFlight` only by the
task images of the old and new phases, up to permutation. -/
theorem inFlight_set (p : ThreadPool) (i : Nat) (a b : WorkerPhase)
    (hw : p.pool_[i]? = some a) :
    ((p.pool_.set i b).filterMap execOf ++ (execOf a).toList).Perm
      (inFlight p ++ (execOf b).toList) :=
  filterMap_set_perm execOf p.pool_ i a b hw

theorem inv_step (n : Nat) (p q : ThreadPool) (inv : PoolInv n p)
    (h : Step p q) : PoolInv n q := by
  cases h with
  | enter i hw =>
      have hb : execOf (if p.force_ && p.quit_ then WorkerPhase.exited else WorkerPhase.waiting) = none := by
        cases p.force_ && p.quit_ <;> rfl
      have hfl := inFlight_set p i WorkerPhase.entry
        (if p.force_ && p.quit_ then WorkerPhase.exited else WorkerPhase.waiting) hw
      rw [hb] at hfl
      simp only [execOf, Option.toList, List.append_nil] at hfl
      refine ⟨inv.fifo, ?_, inv.nodup, by simpa using inv.len, ?_⟩
      · exact inv.acct.trans (List.Perm.append_left _ hfl.symm)
      · rintro ⟨w, hwmem, rfl⟩
        rcases List.mem_or_eq_of_mem_set hwmem with hmem | heq
        · exact inv.exq ⟨_, hmem, rfl⟩
        · by_cases hc : (p.force_ && p.quit_) = true
          · rw [Bool.and_eq_true] at hc
            exact hc.2
          · rw [if_neg hc] at heq
            cases heq
  | exitLoop i hw hq ht =>
      have hfl := inFlight_set p i WorkerPhase.waiting WorkerPhase.exited hw
      simp only [execOf, Option.toList, List.append_nil] at hfl
      refine ⟨inv.fifo, ?_, inv.nodup, by simpa using inv.len, fun _ => hq⟩
      exact inv.acct.trans (List.Perm.append_left _ hfl.symm)
  | dequeue i t ts hw ht =>
      have hfl := inFlight_set p i WorkerPhase.waiting (WorkerPhase.executing t) hw
      simp only [execOf, Option.toList, List.append_nil] at hfl
      refine ⟨?_, ?_, inv.nodup, by simpa using inv.len, ?_⟩
      · show p.committed = (p.dequeued ++ [t]) ++ ts
        rw [inv.fifo, ht, List.append_assoc]
        rfl
      · show (p.dequeued ++ [t]).Perm (p.executed ++ (p.pool_.set i (WorkerPhase.executing t)).filterMap execOf)
        have h1 : (p.dequeued ++ [t]).Perm ((p.executed ++ inFlight p) ++ [t]) :=
          inv.acct.append_right [t]
        have h2 : ((p.executed ++ inFlight p) ++ [t]).Perm
            (p.executed ++ (p.pool_.set i (WorkerPhase.executing t)).filterMap execOf) := by
          rw [List.append_assoc]
          exact List.Perm.append_left _ hfl.symm
        exact h1.trans h2
      · rintro ⟨w, hwmem, rfl⟩
        rcases List.mem_or_eq_of_mem_set hwmem with hmem | heq
        · exact inv.exq ⟨_, hmem, rfl⟩
        · cases heq
  | finish i t hw =>
      have hfl := inFlight_set p i (WorkerPhase.executing t) WorkerPhase.waiting hw
      simp only [execOf, Option.toList, List.append_nil] at hfl
      refine ⟨inv.fifo, ?_, inv.nodup, by simpa using inv.len, ?_⟩
      · show p.dequeued.Perm ((p.executed ++ [t]) ++ (p.pool_.set i WorkerPhase.waiting).filterMap execOf)
        have h1 : p.dequeued.Perm (p.executed ++ ((p.pool_.set i WorkerPhase.waiting).filterMap execOf ++ [t])) :=
          inv.acct.trans (List.Perm.append_left _ hfl.symm)
        have h2 : (p.executed ++ ((p.pool_.set i WorkerPhase.waiting).filterMap execOf ++ [t])).Perm
            ((p.executed ++ [t]) ++ (p.pool_.set i WorkerPhase.waiting).filterMap execOf) := by
          rw [List.append_assoc]
          exact List.Perm.append_left _ List.perm_append_comm
        exact h1.trans h2
      · rintro ⟨w, hwmem, rfl⟩
        rcases List.mem_or_eq_of_mem_set hwmem with hmem | heq
        · exact inv.exq ⟨_, hmem, rfl⟩
        · cases heq
  | commitStep t hq hfresh =>
      have hcommit : (p.commit t).1 = { p with tasks_ := p.tasks_ ++ [t], committed := p.committed ++ [t] } := by
        simp [ThreadPool.commit, hq]
      rw [hcommit]
      refine ⟨?_, inv.acct, ?_, inv.len, ?_⟩
      · show p.committed ++ [t] = p.dequeued ++ (p.tasks_ ++ [t])
        rw [inv.fifo, List.append_assoc]
      · show (p.committed ++ [t]).Nodup
        refine List.nodup_append.2 ⟨inv.nodup, List.nodup_singleton t, ?_⟩
        intro x hx hxt
        rw [List.mem_singleton.1 hxt] at hx
        exact hfresh hx
      · intro hex
        have := inv.exq hex
        rw [hq] at this
        cases this
  | shutdownStep f =>
      exact ⟨inv.fifo, inv.acct, inv.nodup, inv.len, fun _ => rfl⟩

/-- Every state reachable from a freshly started pool satisfies the
invariant. -/
theorem inv_reach (n : Nat) (p : ThreadPool)
    (h : Reach (startedPool n) p) : PoolInv n p := by
  induction h with
  | refl => exact inv_init n
  | tail hsteps hstep ih => exact inv_step n _ _ ih hstep

/-- Reading an updated list position: either we hit the update or the
original entry. -/
theorem getElem_opt_set_cases {α : Type} {l : List α} {i j : Nat} {a b : α}
    (h : (l.set j b)[i]? = some a) : a = b ∨ l[i]? = some a := by
  rw [List.getElem?_set] at h
  by_cases hji : j = i
  · rw [if_pos hji] at h
    by_cases hlt : j < l.length
    · rw [if_pos hlt] at h
      exact Or.inl (Option.some.inj h).symm
    · rw [if_neg hlt] at h
      cases h
  · rw [if_neg hji] at h
    exact Or.inr h

/-- Along a graceful-only step, a worker leaves its loop only when
shutdown has been requested and the queue is empty: the only exit is
the `return` at line 57 (guarded by `quit_ && tasks_.empty()`), since
the line-47 early exit needs `force_` to be true. -/
theorem gstep_exit_only_when_drained (p q : ThreadPool) (h : GStep p q)
    (i : Nat) (ph : WorkerPhase) (hw : p.pool_[i]? = some ph)
    (hph : ph ≠ WorkerPhase.exited)
    (hw' : q.pool_[i]? = some WorkerPhase.exited) :
    p.quit_ = true ∧ p.tasks_ = [] := by
  obtain ⟨hs, hf⟩ := h
  cases hs with
  | enter j hwj =>
      have hforce : p.force_ = false := hf
      rcases getElem_opt_set_cases hw' with heq | hsame
      · rw [hforce] at heq
        simp at heq
      · rw [hw] at hsame
        exact absurd (Option.some.inj hsame) hph
  | exitLoop j hwj hq ht =>
      exact ⟨hq, ht⟩
  | dequeue j t ts hwj ht =>
      rcases getElem_opt_set_cases hw' with heq | hsame
      · cases heq
      · rw [hw] at hsame
        exact absurd (Option.some.inj hsame) hph
  | finish j t hwj =>
      rcases getElem_opt_set_cases hw' with heq | hsame
      · cases heq
      · rw [hw] at hsame
        exact absurd (Option.some.inj hsame) hph
  | commitStep t hq hfresh =>
      have hpool : (p.commit t).1.pool_ = p.pool_ := by
        simp [ThreadPool.commit, hq]
      rw [hpool, hw] at hw'
      exact absurd (Option.some.inj hw') hph
  | shutdownStep f =>
      have hpool : (p.shutdown f).1.pool_ = p.pool_ := rfl
      rw [hpool, hw] at hw'
      exact absurd (Option.some.inj hw') hph

/-- Along graceful-only runs the invariant holds and, whenever every
worker has exited, the queue has been fully drained. -/
theorem gterm_reach (n : Nat) (p : ThreadPool)
    (h : ReachG (startedPool n) p) :
    PoolInv n p ∧ (0 < n → allExited p → p.tasks_ = []) := by
  induction h with
  | refl => exact ⟨inv_init n, fun _ _ => rfl⟩
  | @tail b c hsteps hstep ih =>
      obtain ⟨hs, hf⟩ := hstep
      refine ⟨inv_step n _ _ ih.1 hs, ?_⟩
      intro hn hall
      cases hs with
      | enter j hwj =>
          exfalso
          have hforce : b.force_ = false := hf
          have hlt : j < b.pool_.length := (List.getElem?_eq_some_iff.1 hwj).1
          have hx := List.getElem?_set_eq_of_lt
            (if b.force_ && b.quit_ then WorkerPhase.exited else WorkerPhase.waiting)
            (l := b.pool_) hlt
          have hmem := mem_of_getElem_opt hx
          have := hall _ hmem
          rw [hforce] at this
          simp at this
      | exitLoop j hwj hq ht =>
          exact ht
      | dequeue j t ts hwj ht =>
          exfalso
          have hlt : j < b.pool_.length := (List.getElem?_eq_some_iff.1 hwj).1
          have hx := List.getElem?_set_eq_of_lt (WorkerPhase.executing t)
            (l := b.pool_) hlt
          have hmem := mem_of_getElem_opt hx
          have := hall _ hmem
          cases this
      | finish j t hwj =>
          exfalso
          have hlt : j < b.pool_.length := (List.getElem?_eq_some_iff.1 hwj).1
          have hx := List.getElem?_set_eq_of_lt WorkerPhase.waiting
            (l := b.pool_) hlt
          have hmem := mem_of_getElem_opt hx
          have := hall _ hmem
          cases this
      | commitStep t hq hfresh =>
          exfalso
          have hpool : (b.commit t).1.pool_ = b.pool_ := by
            simp [ThreadPool.commit, hq]
          have hne : b.pool_ ≠ [] := by
            rw [← List.length_pos]
            rw [ih.1.len]
            exact hn
          obtain ⟨w, hwmem⟩ := List.exists_mem_of_ne_nil b.pool_ hne
          have hwex : w = WorkerPhase.exited := by
            apply hall
            rw [hpool]
            exact hwmem
          have := ih.1.exq ⟨w, hwmem, hwex⟩
          rw [hq] at this
          cases this
      | shutdownStep f =>
          have hpool : (b.shutdown f).1.pool_ = b.pool_ := rfl
          apply ih.2 hn
          intro w hwmem
          apply hall
          rw [hpool]
          exact hwmem

/-- A concrete graceful run of a one-worker pool: the worker enters its
loop, task 0 is committed, `shutdown(false)` is requested, then the
worker dequeues task 0, executes it, and exits on the empty queue. -/
theorem reachG_gDone : ReachG (startedPool 1) gDone := by
  refine Relation.ReflTransGen.head ⟨Step.enter (startedPool 1) 0 (by decide), rfl⟩ ?_
  refine Relation.ReflTransGen.head ⟨Step.commitStep _ 0 rfl (by decide), rfl⟩ ?_
  refine Relation.ReflTransGen.head ⟨Step.shutdownStep _ false, rfl⟩ ?_
  refine Relation.ReflTransGen.head ⟨Step.dequeue _ 0 0 [] (by decide) rfl, rfl⟩ ?_
  refine Relation.ReflTransGen.head ⟨Step.finish _ 0 0 (by decide), rfl⟩ ?_
  refine Relation.ReflTransGen.head ⟨Step.exitLoop _ 0 (by decide) rfl rfl, rfl⟩ ?_
  exact Relation.ReflTransGen.refl

/-- A concrete run of a one-worker pool reaching `qReady`: the worker
enters its loop and task 0 is committed. -/
theorem reach_qReady : Reach (startedPool 1) qReady := by
  refine Relation.ReflTransGen.head (Step.enter (startedPool 1) 0 (by decide)) ?_
  refine Relation.ReflTransGen.head (Step.commitStep _ 0 rfl (by decide)) ?_
  exact Relation.ReflTransGen.refl

/-- C1: under graceful-only shutdown, no accepted task is lost or
duplicated.  In every reachable state of a pool started with `n`
workers: the accepted ids are distinct; they are exactly the executed
ids plus the ids being executed plus the ids still queued (so each
accepted task is dequeued and invoked by at most one worker, exactly
once overall); a worker leaves its loop only when shutdown has been
requested and the queue is empty; and once every worker has exited the
queue has been drained and the executed ids are exactly the accepted
ones — each executed exactly once. -/
theorem graceful_no_task_lost_or_duplicated (n : Nat) (p : ThreadPool)
    (h : ReachG (startedPool n) p) :
    p.committed.Nodup ∧
    p.committed.Perm (p.executed ++ inFlight p ++ p.tasks_) ∧
    (∀ (q : ThreadPool) (i : Nat) (ph : WorkerPhase),
      GStep p q → p.pool_[i]? = some ph → ph ≠ WorkerPhase.exited →
      q.pool_[i]? = some WorkerPhase.exited → p.quit_ = true ∧ p.tasks_ = []) ∧
    (0 < n → allExited p → p.tasks_ = [] ∧ p.executed.Perm p.committed) := by
  obtain ⟨inv, hterm⟩ := gterm_reach n p h
  refine ⟨inv.nodup, ?_, ?_, ?_⟩
  · rw [inv.fifo]
    exact inv.acct.append_right p.tasks_
  · intro q i ph hg hw hph hw'
    exact gstep_exit_only_when_drained p q hg i ph hw hph hw'
  · intro hn hall
    have htasks := hterm hn hall
    refine ⟨htasks, ?_⟩
    have hifl : inFlight p = [] := by
      apply List.filterMap_eq_nil_iff.2
      intro w hw
      rw [hall w hw]
      rfl
    have hacct := inv.acct
    rw [hifl, List.append_nil] at hacct
    have hc : p.committed = p.dequeued := by
      rw [inv.fifo, htasks, List.append_nil]
    rw [hc]
    exact hacct.symm

theorem graceful_no_task_lost_or_duplicated_witness :
    gDone.committed.Nodup ∧ gDone.tasks_ = [] ∧
    gDone.executed.Perm gDone.committed := by
  obtain ⟨h1, _, _, h4⟩ :=
    graceful_no_task_lost_or_duplicated 1 gDone reachG_gDone
  obtain ⟨h2, h3⟩ := h4 (by decide) (by decide)
  exact ⟨h1, h2, h3⟩

/-- Every index of the singleton list `[waiting]` holds `waiting`. -/
theorem singleton_waiting_phase {i : Nat} {ph : WorkerPhase}
    (h : ([WorkerPhase.waiting] : List WorkerPhase)[i]? = some ph) :
    ph = WorkerPhase.waiting := by
  cases i with
  | zero => exact (Option.some.inj h).symm
  | succ j => simp at h

/-- C2 (code bug): the forced-shutdown claim fails on the code.  The
local `bool quit_` of line 47 is computed once at thread entry and
never reassigned, so a worker already inside its loop can only leave
through the line-57 `return`, whose guard `quit_ && tasks_.empty()`
still forces a full drain.  Concretely: in `fShutdown` a forced
shutdown has just been requested (`quit_` and `force_` both true) while
task 0 sits in the queue and nothing is executing; the run continues by
dequeuing and executing task 0 before the worker exits (`fFinal`,
`executed = [0]`), and no step available at `fShutdown` lets the worker
exit while task 0 is still queued.  This contradicts the claim — and
the code's own comment on `force_` (line 99), which promises that
remaining tasks are abandoned. -/
theorem forced_shutdown_still_executes_queued_task :
    Reach (startedPool 1) fShutdown ∧
    fShutdown.quit_ = true ∧ fShutdown.force_ = true ∧
    fShutdown.tasks_ = [0] ∧ inFlight fShutdown = [] ∧
    fShutdown.executed = [] ∧
    Reach fShutdown fFinal ∧ fFinal.executed = [0] ∧ allExited fFinal ∧
    (∀ q, Step fShutdown q → q.pool_ ≠ [WorkerPhase.exited]) := by
  refine ⟨?_, rfl, rfl, rfl, rfl, rfl, ?_, rfl, by decide, ?_⟩
  · refine Relation.ReflTransGen.head (Step.enter (startedPool 1) 0 (by decide)) ?_
    refine Relation.ReflTransGen.head (Step.commitStep _ 0 rfl (by decide)) ?_
    refine Relation.ReflTransGen.head (Step.shutdownStep _ true) ?_
    exact Relation.ReflTransGen.refl
  · refine Relation.ReflTransGen.head (Step.dequeue fShutdown 0 0 [] (by decide) rfl) ?_
    refine Relation.ReflTransGen.head (Step.finish _ 0 0 (by decide)) ?_
    refine Relation.ReflTransGen.head (Step.exitLoop _ 0 (by decide) rfl rfl) ?_
    exact Relation.ReflTransGen.refl
  · intro q hs
    cases hs with
    | enter i hw =>
        have := singleton_waiting_phase hw
        cases this
    | exitLoop i hw hq ht =>
        cases ht
    | dequeue i t ts hw ht =>
        have := singleton_waiting_phase hw
        cases i with
        | zero => simp [fShutdown]
        | succ j => simp [fShutdown, List.set]
    | finish i t hw =>
        have := singleton_waiting_phase hw
        cases this
    | commitStep t hq hfresh =>
        cases hq
    | shutdownStep f =>
        simp [ThreadPool.shutdown, fShutdown]

/-- C6: the task queue is FIFO.  In every reachable state the accepted
ids, in acceptance order, are exactly the already-dequeued ids followed
by the current queue: dequeues happen in exactly the order tasks were
enqueued, and the queue preserves insertion order.  Moreover any step
that dequeues removes exactly one task, taken from the front of the
queue. -/
theorem queue_fifo_order_preserved (n : Nat) (p : ThreadPool)
    (h : Reach (startedPool n) p) :
    p.committed = p.dequeued ++ p.tasks_ ∧
    (∀ q, Step p q → q.dequeued ≠ p.dequeued →
      ∃ t, p.tasks_ = t :: q.tasks_ ∧ q.dequeued = p.dequeued ++ [t]) := by
  refine ⟨(inv_reach n p h).fifo, ?_⟩
  intro q hs hne
  cases hs with
  | enter i hw => exact absurd rfl hne
  | exitLoop i hw hq ht => exact absurd rfl hne
  | dequeue i t ts hw ht => exact ⟨t, ht, rfl⟩
  | finish i t hw => exact absurd rfl hne
  | commitStep t hq hfresh =>
      exfalso
      apply hne
      simp [ThreadPool.commit, hq]
  | shutdownStep f => exact absurd rfl hne

theorem queue_fifo_order_preserved_witness :
    qReady.committed = qReady.dequeued ++ qReady.tasks_ ∧
    (∃ t, qReady.tasks_ = t :: qAfter.tasks_ ∧
      qAfter.dequeued = qReady.dequeued ++ [t]) := by
  obtain ⟨h1, h2⟩ := queue_fifo_order_preserved 1 qReady reach_qReady
  exact ⟨h1, h2 qAfter (Step.dequeue qReady 0 0 [] (by decide) rfl) (by decide)⟩

/-- C7: a failure raised by a task body is captured into that task's
result cell (`invokeTask` settles the future to `failed`, nothing
propagates out of the line-87 wrapper), so the executing worker
survives: the `finish` transition of the loop is available no matter
how the body ended, it puts the worker back at the wait, and from there
the worker dequeues and executes the next queued task. -/
theorem task_failure_captured_worker_survives (m : String)
    (p : ThreadPool) (i : Nat) (t : Nat)
    (hw : p.pool_[i]? = some (WorkerPhase.executing t)) :
    invokeTask (Except.error m) = FutureState.failed m ∧
    Step p { p with pool_ := p.pool_.set i WorkerPhase.waiting, executed := p.executed ++ [t] } ∧
    ({ p with pool_ := p.pool_.set i WorkerPhase.waiting, executed := p.executed ++ [t] } : ThreadPool).pool_[i]? = some WorkerPhase.waiting ∧
    (∀ u us, p.tasks_ = u :: us →
      Step { p with pool_ := p.pool_.set i WorkerPhase.waiting, executed := p.executed ++ [t] }
        { p with pool_ := (p.pool_.set i WorkerPhase.waiting).set i (WorkerPhase.executing u), tasks_ := us, dequeued := p.dequeued ++ [u], executed := p.executed ++ [t] }) := by
  have hlt : i < p.pool_.length := (List.getElem?_eq_some_iff.1 hw).1
  have hwait : (p.pool_.set i WorkerPhase.waiting)[i]? = some WorkerPhase.waiting :=
    List.getElem?_set_eq_of_lt WorkerPhase.waiting hlt
  refine ⟨rfl, Step.finish p i t hw, hwait, ?_⟩
  intro u us hts
  exact Step.dequeue _ i u us hwait hts

theorem task_failure_captured_worker_survives_witness :
    invokeTask (Except.error "boom") = FutureState.failed "boom" ∧
    Step pExec pExecDone ∧
    pExecDone.pool_[0]? = some WorkerPhase.waiting ∧
    Step pExecDone pExecNext := by
  obtain ⟨h1, h2, h3, h4⟩ :=
    task_failure_captured_worker_survives "boom" pExec 0 0 (by decide)
  exact ⟨h1, h2, h3, h4 1 [] rfl⟩

/-- C8 counterexample: the destructor does not perform a NON-FORCED
shutdown request.  Line 34 only stores `quit_`; it leaves `force_`
untouched, so after a prior `shutdown(true)` the destructor's flag
update keeps the forced mode, while a non-forced shutdown request
(`shutdown(false)`, lines 68-71) would clear it. -/
theorem dtor_not_nonforced_shutdown_counterexample :
    (((startedPool 1).shutdown true).1.dtorRequest).force_ = true ∧
    ((((startedPool 1).shutdown true).1).shutdown false).1.force_ = false ∧
    ((startedPool 1).shutdown true).1.dtorRequest ≠
      ((((startedPool 1).shutdown true).1).shutdown false).1 := by
  decide

/-- C8 amended: pool destruction sets the shutdown-requested flag to
true (leaving the shutdown-mode flag unchanged, so a previously set
forced mode persists), broadcasts `notify_all` to wake every worker,
and then joins every worker thread: its join loop completes only when
every worker has exited, so the destructor does not return before
then. -/
theorem dtor_requests_shutdown_and_joins_all (p : ThreadPool)
    (h : p.dtorJoinDone = true) :
    p.dtorRequest.quit_ = true ∧
    p.dtorRequest.force_ = p.force_ ∧
    p.dtorRequest.tasks_ = p.tasks_ ∧
    ThreadPool.dtorEvents = [PoolEvent.storeQuit true, PoolEvent.notifyAll] ∧
    PoolEvent.notifyAll ∈ ThreadPool.dtorEvents ∧
    allExited p := by
  refine ⟨rfl, rfl, rfl, rfl, by simp [ThreadPool.dtorEvents], ?_⟩
  intro w hwmem
  have hall := List.all_eq_true.1 h w hwmem
  exact of_decide_eq_true hall

theorem dtor_requests_shutdown_and_joins_all_witness :
    pJoined.dtorJoinDone = true ∧
    pJoined.dtorRequest.quit_ = true ∧
    pJoined.dtorRequest.force_ = pJoined.force_ ∧
    PoolEvent.notifyAll ∈ ThreadPool.dtorEvents ∧
    allExited pJoined := by
  obtain ⟨h1, h2, _, _, h5, h6⟩ :=
    dtor_requests_shutdown_and_joins_all pJoined (by decide)
  exact ⟨by decide, h1, h2, h5, h6⟩
